import Mathlib

/-!
Shallow embedding of the root controller component of the map-style editor
(`src/components/App.jsx`).

The component holds the authoritative in-memory style document and mediates
edits from the UI panels.  We model its mutable pieces explicitly:

* `AppState` mirrors `this.state` of the component (errors, infos, mapStyle,
  selectedLayerIndex, sources, vectorLayers, inspectModeEnabled, spec);
* `RevisionStore` mirrors the instance field `this.revisionStore`;
* `App` bundles the two;
* `AppEnv` collects the external functions the component calls but does not
  own: the style-spec validator (`styleSpec.validate`, an external library),
  the human-readable diff summaries (`undoMessages` / `redoMessages`) and the
  host-supplied `transformRequest` prop;
* `Effect` records the outward-visible calls an operation performs
  (`onSnapshotSave`, the font/sprite metadata updates, the vector metadata
  fetches).  Asynchronous callbacks (metadata downloads) are modelled as
  effects rather than immediate state changes, matching the fire-and-forget
  network model of the component.

JavaScript objects used as string-keyed dictionaries (`this.state.sources`,
`mapStyle.sources`, the schema `$root`) are modelled as association lists in
insertion order; `hasOwnProperty` becomes `lookupKey` and object-spread
key insertion becomes list append / `setKey`.  `setState` is modelled as a
synchronous functional update of the state record.
-/

namespace Editor

/-- One entry of the list returned by the external validator
`styleSpec.validate`; the controller only reads its `message` field. -/
structure ValidationError where
  message : String
  deriving DecidableEq, Repr

/-- A layer of the style document.  The controller only inspects the `id`
field; all remaining layer properties are carried opaquely in `attrs`. -/
structure Layer where
  id : String
  attrs : List (String × String)
  deriving DecidableEq, Repr

/-- A source definition inside the style document (`mapStyle.sources`
values).  `fetchSources` reads its `type` and (optional) `url` property;
other properties are opaque. -/
structure SourceDef where
  type : String
  url : Option String
  attrs : List (String × String)
  deriving DecidableEq, Repr

/-- An entry of the controller's source-metadata cache (`this.state.sources`
values): the object literal `\x7b type: val.type, layers: [] \x7d` filled in by
the metadata fetch callback. -/
structure SourceEntry where
  type : String
  layers : List String
  deriving DecidableEq, Repr

/-- The style document.  The controller reads `glyphs`, `sprite`, `layers`
and `sources`; everything else (metadata, version, ...) is opaque `attrs`. -/
structure Style where
  glyphs : Option String
  sprite : Option String
  layers : List Layer
  sources : List (String × SourceDef)
  attrs : List (String × String)
  deriving DecidableEq, Repr

/-- A field entry of the style-spec schema root (`spec.$root[fieldName]`):
its `values` list plus the remaining properties, kept opaque. -/
structure SpecField where
  values : List String
  rest : List (String × String)
  deriving DecidableEq, Repr

/-- The style-spec schema object held in `this.state.spec`
(`styleSpec.latest` initially, updated by `updateRootSpec`). -/
structure SpecSchema where
  root : List (String × SpecField)
  rest : List (String × String)
  deriving DecidableEq, Repr

/-- The component state `this.state` of `App`, field for field. -/
structure AppState where
  errors : List String
  infos : List String
  mapStyle : Style
  selectedLayerIndex : Option Nat
  sources : List (String × SourceEntry)
  vectorLayers : List (String × List String)
  inspectModeEnabled : Bool
  spec : SpecSchema
  deriving DecidableEq, Repr

/-- Modelled from the spec: "Revision store: linear undo/redo snapshot stack
over style documents" — the implementation (`src/libs/revisions.js`) is not
under `src/`.  `undoStack` holds the snapshots up to and including the
current one (current at the head); `redoStack` holds the snapshots undone
since the last new revision, nearest first. -/
structure RevisionStore where
  undoStack : List Style
  redoStack : List Style
  deriving DecidableEq, Repr

/-- The component instance: its state plus the `revisionStore` field. -/
structure App where
  state : AppState
  revisionStore : RevisionStore
  deriving DecidableEq, Repr

/-- The external functions the component calls but does not define:
the style-spec validator and the diff-message and request-transform
helpers.  They are opaque to the controller, so the embedding is
parameterised by them. -/
structure AppEnv where
  validate : Style → List ValidationError
  undoMessages : Style → Style → List String
  redoMessages : Style → Style → List String
  transformRequest : String → String

/-- Outward-visible calls performed by an operation: the `onSnapshotSave`
callback, the asynchronous font/sprite metadata updates started by
`updateFonts` / `updateIcons`, and the vector-source metadata fetches
started by `fetchSources`. -/
inductive Effect where
  | snapshotSave (snapshot : Style)
  | fontUpdate (glyphs : Option String)
  | iconUpdate (sprite : Option String)
  | fetchVector (key : String) (url : String)
  deriving DecidableEq, Repr

/-- First binding of a key in an association list: JavaScript property
lookup / `hasOwnProperty` on an object literal in insertion order. -/
def lookupKey (k : String) : List (String × α) → Option α
  | [] => none
  | (k2, v) :: rest => if k2 = k then some v else lookupKey k rest

/-- JavaScript computed-key object update `obj[k] = v`: replace the binding
in place when the key is present, append it otherwise. -/
def setKey (k : String) (v : α) : List (String × α) → List (String × α)
  | [] => [(k, v)]
  | (k2, v2) :: rest => if k2 = k then (k, v) :: rest else (k2, v2) :: setKey k v rest

/-- Modelled from the spec: `style.indexOfLayer` comes from
`src/libs/style.js`, which is not under `src/`.  It yields the position of
the layer with the given id in the layer list, `none` when absent. -/
def indexOfLayer : List Layer → String → Option Nat
  | [], _ => none
  | l :: rest, layerId =>
    if l.id = layerId then some 0 else (indexOfLayer rest layerId).map (· + 1)

/-- In-place id replacement used by `onLayerIdChange`:
`changedLayers[idx] = \x7b ...changedLayers[idx], id: newId \x7d`. -/
def renameLayerAt : List Layer → Nat → String → List Layer
  | [], _, _ => []
  | l :: rest, 0, newId => { l with id := newId } :: rest
  | l :: rest, n + 1, newId => l :: renameLayerAt rest n newId

/-- `updateRootSpec` from `App.jsx`: rebuild the schema with
`spec.$root[fieldName].values` replaced by `newValues` (the remaining field
properties are spread over; a missing field contributes none). -/
def updateRootSpec (sp : SpecSchema) (fieldName : String) (newValues : List String) : SpecSchema :=
  { root := setKey fieldName
      { values := newValues,
        rest := match lookupKey fieldName sp.root with
          | some f => f.rest
          | none => [] } sp.root,
    rest := sp.rest }

/-- Modelled from the spec: adding a snapshot to the linear undo/redo stack
(`revisionStore.addRevision`).  The new snapshot becomes current and any
undone-but-not-redone branch is discarded. -/
def RevisionStore.addRevision (rs : RevisionStore) (revision : Style) : RevisionStore :=
  { undoStack := revision :: rs.undoStack, redoStack := [] }

/-- Modelled from the spec: `revisionStore.undo` steps back one snapshot
when an earlier one exists and returns the now-current snapshot; at the
bottom of the stack it returns the current snapshot unchanged, and on an
empty store there is no snapshot to return. -/
def RevisionStore.undo (rs : RevisionStore) : RevisionStore × Option Style :=
  match rs.undoStack with
  | cur :: prev :: older =>
    ({ undoStack := prev :: older, redoStack := cur :: rs.redoStack }, some prev)
  | _ => (rs, rs.undoStack.head?)

/-- Modelled from the spec: `revisionStore.redo` steps forward one snapshot
when one was undone and returns the now-current snapshot; with nothing to
redo it returns the current snapshot unchanged. -/
def RevisionStore.redo (rs : RevisionStore) : RevisionStore × Option Style :=
  match rs.redoStack with
  | next :: rest => ({ undoStack := next :: rs.undoStack, redoStack := rest }, some next)
  | [] => (rs, rs.undoStack.head?)

/-- The `App` constructor: initial state field for field
(`errors: [], infos: [], mapStyle: props.mapStyle, selectedLayerIndex: 0,
sources: \x7b\x7d, vectorLayers: \x7b\x7d, inspectModeEnabled: false,
spec: styleSpec.latest`) and a fresh empty revision store. -/
def App.init (propsMapStyle : Style) (latestSpec : SpecSchema) : App :=
  { state :=
      { errors := []
        infos := []
        mapStyle := propsMapStyle
        selectedLayerIndex := some 0
        sources := []
        vectorLayers := []
        inspectModeEnabled := false
        spec := latestSpec },
    revisionStore := { undoStack := [], redoStack := [] } }

/-- `getDerivedStateFromProps`: returns `\x7b ...prevState, mapStyle \x7d`,
i.e. the previous state with `mapStyle` replaced by the incoming prop.  No
validation is involved: the definition does not even take the validator. -/
def getDerivedStateFromProps (propsMapStyle : Style) (prevState : AppState) : AppState :=
  { prevState with mapStyle := propsMapStyle }

/-- The loop body of `fetchSources`: walk the style's sources in order,
carrying the accumulated `sourceList` (initially a copy of the cache).
A key already present in `sourceList` is skipped (`continue`); otherwise an
entry with the source's type and an empty layer list is added, and a
metadata fetch is started when the key was not in the original cache
(`orig`), the source type is "vector" and it has a `url` property. -/
def fetchSourcesLoop (env : AppEnv) (orig : List (String × SourceEntry)) :
    List (String × SourceDef) → List (String × SourceEntry) →
      List (String × SourceEntry) × List Effect
  | [], sourceList => (sourceList, [])
  | (key, val) :: rest, sourceList =>
    match lookupKey key sourceList with
    | some _ => fetchSourcesLoop env orig rest sourceList
    | none =>
      let sourceList2 := sourceList ++ [(key, { type := val.type, layers := [] })]
      let effs : List Effect :=
        match lookupKey key orig, val.url with
        | none, some u =>
          if val.type = "vector" then [Effect.fetchVector key (env.transformRequest u)]
          else []
        | _, _ => []
      let r := fetchSourcesLoop env orig rest sourceList2
      (r.1, effs ++ r.2)

/-- `fetchSources`: extend the source-metadata cache with entries for the
style's sources and start the vector metadata fetches.  The final
`isEqual`-guarded `setState` installs the extended list; when nothing was
added the result is the unchanged cache, so the guard is transparent to the
state value. -/
def fetchSources (env : AppEnv) (st : AppState) : AppState × List Effect :=
  let r := fetchSourcesLoop env st.sources st.mapStyle.sources st.sources
  ({ st with sources := r.1 }, r.2)

/-- `onStyleChanged(newStyle, save)`: validate with the external validator;
on success start the font/sprite updates when those fields changed, add a
revision, fire `onSnapshotSave` when `save` is set and commit
`mapStyle = newStyle, errors = []`; on failure only set `errors` to the
validators' messages.  Both branches then run `fetchSources`. -/
def App.onStyleChanged (env : AppEnv) (app : App) (newStyle : Style) (save : Bool) :
    App × List Effect :=
  let errors := env.validate newStyle
  if errors.length = 0 then
    let fontEffs : List Effect :=
      if newStyle.glyphs ≠ app.state.mapStyle.glyphs then [Effect.fontUpdate newStyle.glyphs]
      else []
    let iconEffs : List Effect :=
      if newStyle.sprite ≠ app.state.mapStyle.sprite then [Effect.iconUpdate newStyle.sprite]
      else []
    let rs := app.revisionStore.addRevision newStyle
    let saveEffs : List Effect := if save then [Effect.snapshotSave newStyle] else []
    let fs := fetchSources env { app.state with mapStyle := newStyle, errors := [] }
    ({ state := fs.1, revisionStore := rs }, fontEffs ++ iconEffs ++ saveEffs ++ fs.2)
  else
    let fs := fetchSources env { app.state with errors := errors.map (fun e => e.message) }
    ({ state := fs.1, revisionStore := app.revisionStore }, fs.2)

/-- `onUndo`: take the snapshot the revision store steps back to, pass it to
`onSnapshotSave` (via `saveStyle`) and commit it as `mapStyle` together with
the undo messages.  On an empty store there is no snapshot to restore
(modelled from the spec, see `RevisionStore.undo`). -/
def App.onUndo (env : AppEnv) (app : App) : App × List Effect :=
  let r := app.revisionStore.undo
  match r.2 with
  | some activeStyle =>
    ({ state :=
        { app.state with
            mapStyle := activeStyle
            infos := env.undoMessages app.state.mapStyle activeStyle },
       revisionStore := r.1 },
     [Effect.snapshotSave activeStyle])
  | none => ({ app with revisionStore := r.1 }, [])

/-- `onRedo`: take the snapshot the revision store steps forward to, pass it
to `onSnapshotSave` and commit it as `mapStyle` together with the redo
messages. -/
def App.onRedo (env : AppEnv) (app : App) : App × List Effect :=
  let r := app.revisionStore.redo
  match r.2 with
  | some activeStyle =>
    ({ state :=
        { app.state with
            mapStyle := activeStyle
            infos := env.redoMessages app.state.mapStyle activeStyle },
       revisionStore := r.1 },
     [Effect.snapshotSave activeStyle])
  | none => ({ app with revisionStore := r.1 }, [])

/-- `onLayersChange(changedLayers)`: rebuild the style with the new layer
list and run it through `onStyleChanged` (with the default `save = true`). -/
def App.onLayersChange (env : AppEnv) (app : App) (changedLayers : List Layer) :
    App × List Effect :=
  App.onStyleChanged env app { app.state.mapStyle with layers := changedLayers } true

/-- `onLayerIdChange(oldId, newId)`: copy the layer list, replace the id of
the layer at `indexOfLayer(layers, oldId)` and delegate to `onLayersChange`.
When the id is absent the JavaScript index is `null` and the assignment
lands on a stray object property, leaving the list elements unchanged. -/
def App.onLayerIdChange (env : AppEnv) (app : App) (oldId newId : String) :
    App × List Effect :=
  match indexOfLayer app.state.mapStyle.layers oldId with
  | some idx => App.onLayersChange env app (renameLayerAt app.state.mapStyle.layers idx newId)
  | none => App.onLayersChange env app app.state.mapStyle.layers

/-- `onLayerChanged(layer)`: copy the layer list, overwrite the entry at
`indexOfLayer(layers, layer.id)` with the new layer and delegate to
`onLayersChange`.  As above, an absent id leaves the elements unchanged. -/
def App.onLayerChanged (env : AppEnv) (app : App) (layer : Layer) : App × List Effect :=
  match indexOfLayer app.state.mapStyle.layers layer.id with
  | some idx => App.onLayersChange env app (app.state.mapStyle.layers.set idx layer)
  | none => App.onLayersChange env app app.state.mapStyle.layers

/-- `changeInspectMode`: flip the `inspectModeEnabled` flag. -/
def App.changeInspectMode (app : App) : App :=
  { app with state :=
      { app.state with inspectModeEnabled := !app.state.inspectModeEnabled } }

/-- `onLayerSelect(layerId)`: set `selectedLayerIndex` to
`indexOfLayer(layers, layerId)`. -/
def App.onLayerSelect (app : App) (layerId : String) : App :=
  { app with state :=
      { app.state with
          selectedLayerIndex := indexOfLayer app.state.mapStyle.layers layerId } }

/-- One user-driven operation on the controller, for stating invariants
over operation sequences. -/
inductive EditorOp where
  | styleChanged (newStyle : Style) (save : Bool)
  | undo
  | redo
  deriving DecidableEq, Repr

/-- Run one operation, keeping the resulting component (effects dropped). -/
def App.runOp (env : AppEnv) (app : App) : EditorOp → App
  | EditorOp.styleChanged s save => (App.onStyleChanged env app s save).1
  | EditorOp.undo => (App.onUndo env app).1
  | EditorOp.redo => (App.onRedo env app).1

/-- Run a sequence of operations left to right. -/
def App.runOps (env : AppEnv) (app : App) : List EditorOp → App
  | [] => app
  | op :: rest => App.runOps env (App.runOp env app op) rest

/-! ### The catch handler of `fetchSources`

The `.catch` handler of the metadata fetch is
`console.error("Failed to process sources for ...", url, err)`.
Whether it runs without raising is a question of JavaScript scoping: every
identifier it mentions must be bound in the enclosing scopes or on the
global object, otherwise evaluating it throws a `ReferenceError`.  We
transcribe the identifiers in scope at that program point from the source
and check the handler's free identifiers against them. -/

/-- Identifiers visible at the catch handler (`App.jsx`, inside
`fetchSources`): the handler parameter `err`; the enclosing loop and method
bindings `req`, `val`, `key`, `sourceList`, `this`; the module-level
bindings (imports plus `updateRootSpec` and `App`); and the browser globals
the module uses. -/
def fetchSourcesCatchScope : List String :=
  ["err", "req", "val", "key", "sourceList", "this",
   "console", "fetch", "Object", "JSON",
   "React", "PropTypes", "Mousetrap", "MapboxGlMap", "LayerList", "LayerEditor",
   "Toolbar", "AppLayout", "MessagePanel", "downloadGlyphsMetadata",
   "downloadSpriteMetadata", "styleSpec", "style", "initialStyleUrl",
   "loadStyleUrl", "undoMessages", "redoMessages", "loadDefaultStyle",
   "StyleStore", "RevisionStore", "LayerWatcher", "tokens", "isEqual",
   "Debug", "MapboxGl", "updateRootSpec", "App"]

/-- The identifiers the catch handler body references:
`console.error("Failed to process sources for ...", url, err)`. -/
def fetchSourcesCatchRefs : List String := ["console", "url", "err"]

/-- Evaluating the handler throws a `ReferenceError` exactly when one of its
referenced identifiers is not in scope. -/
def fetchSourcesCatchRaises : Bool :=
  fetchSourcesCatchRefs.any (fun ident => !(fetchSourcesCatchScope.contains ident))

/-! ### Concrete instances used by witnesses and counterexamples -/

/-- An empty schema object standing in for `styleSpec.latest`. -/
def spec0 : SpecSchema := { root := [], rest := [] }

/-- A first sample layer. -/
def layerA : Layer := { id := "a", attrs := [] }

/-- A second sample layer. -/
def layerB : Layer := { id := "b", attrs := [] }

/-- A third sample layer. -/
def layerC : Layer := { id := "c", attrs := [] }

/-- A sample style with two layers. -/
def style0 : Style :=
  { glyphs := none, sprite := none, layers := [layerA, layerB], sources := [], attrs := [] }

/-- A sample style with one layer. -/
def style1 : Style :=
  { glyphs := none, sprite := none, layers := [layerA], sources := [], attrs := [] }

/-- A sample style with three layers (rejected by `validate0`). -/
def badStyle : Style :=
  { glyphs := none, sprite := none, layers := [layerA, layerB, layerC], sources := [], attrs := [] }

/-- A sample accepted style that changes the glyphs and sprite URLs. -/
def styleFonts : Style :=
  { glyphs := some "https://fonts.example/g", sprite := some "https://sprites.example/s",
    layers := [layerA], sources := [], attrs := [] }

/-- A concrete behaviour for the external validator: accept styles with at
most two layers, reject the rest with one error. -/
def validate0 : Style → List ValidationError :=
  fun s => if s.layers.length ≤ 2 then [] else [{ message := "too many layers" }]

/-- A concrete environment built from `validate0` and trivial helpers. -/
def env0 : AppEnv :=
  { validate := validate0
    undoMessages := fun _ _ => ["undo"]
    redoMessages := fun _ _ => ["redo"]
    transformRequest := fun u => u }

/-- A sample vector source definition with a url. -/
def srcDefV : SourceDef :=
  { type := "vector", url := some "https://tiles.example/tiles.json", attrs := [] }

/-- A sample style carrying the vector source under the key "osm". -/
def styleC6 : Style :=
  { glyphs := none, sprite := none, layers := [layerA], sources := [("osm", srcDefV)],
    attrs := [] }

/-- A sample state whose style has the "osm" vector source and whose
source cache is empty. -/
def stC6 : AppState := (App.init styleC6 spec0).state

/-! ### Association-list lemmas -/

theorem lookupKey_append_of_some {α : Type} {k : String} {l1 l2 : List (String × α)} {v : α}
    (h : lookupKey k l1 = some v) : lookupKey k (l1 ++ l2) = some v := by
  induction l1 with
  | nil => simp [lookupKey] at h
  | cons p rest ih =>
    obtain ⟨k2, w⟩ := p
    by_cases hk : k2 = k
    · simp [lookupKey, hk] at h ⊢
      exact h
    · simp [lookupKey, hk] at h ⊢
      exact ih h

theorem lookupKey_append_of_none {α : Type} {k : String} {l1 l2 : List (String × α)}
    (h : lookupKey k l1 = none) : lookupKey k (l1 ++ l2) = lookupKey k l2 := by
  induction l1 with
  | nil => simp
  | cons p rest ih =>
    obtain ⟨k2, w⟩ := p
    by_cases hk : k2 = k
    · simp [lookupKey, hk] at h
    · simp [lookupKey, hk] at h ⊢
      exact ih h

theorem lookupKey_singleton_self {α : Type} (k : String) (v : α) :
    lookupKey k [(k, v)] = some v := by
  simp [lookupKey]

theorem lookupKey_singleton_ne {α : Type} {k k2 : String} (v : α) (h : k2 ≠ k) :
    lookupKey k [(k2, v)] = none := by
  simp [lookupKey, h]

theorem lookupKey_append_none {α : Type} {k : String} {l1 l2 : List (String × α)}
    (h : lookupKey k (l1 ++ l2) = none) :
    lookupKey k l1 = none ∧ lookupKey k l2 = none := by
  cases h1 : lookupKey k l1 with
  | some v => rw [lookupKey_append_of_some h1] at h; exact absurd h (by simp)
  | none => rw [lookupKey_append_of_none h1] at h; exact ⟨rfl, h⟩

/-! ### Frame lemmas for `fetchSources` -/

theorem fetchSources_fst_mapStyle (env : AppEnv) (st : AppState) :
    (fetchSources env st).1.mapStyle = st.mapStyle := rfl

theorem fetchSources_fst_errors (env : AppEnv) (st : AppState) :
    (fetchSources env st).1.errors = st.errors := rfl

theorem fetchSources_fst_infos (env : AppEnv) (st : AppState) :
    (fetchSources env st).1.infos = st.infos := rfl

theorem fetchSources_fst_selectedLayerIndex (env : AppEnv) (st : AppState) :
    (fetchSources env st).1.selectedLayerIndex = st.selectedLayerIndex := rfl

theorem fetchSources_fst_vectorLayers (env : AppEnv) (st : AppState) :
    (fetchSources env st).1.vectorLayers = st.vectorLayers := rfl

theorem fetchSources_fst_inspectModeEnabled (env : AppEnv) (st : AppState) :
    (fetchSources env st).1.inspectModeEnabled = st.inspectModeEnabled := rfl

theorem fetchSources_fst_spec (env : AppEnv) (st : AppState) :
    (fetchSources env st).1.spec = st.spec := rfl

theorem fetchSources_fst_sources (env : AppEnv) (st : AppState) :
    (fetchSources env st).1.sources
      = (fetchSourcesLoop env st.sources st.mapStyle.sources st.sources).1 := rfl

theorem fetchSources_snd (env : AppEnv) (st : AppState) :
    (fetchSources env st).2
      = (fetchSourcesLoop env st.sources st.mapStyle.sources st.sources).2 := rfl

/-! ### Shape lemmas for `onStyleChanged` -/

theorem onStyleChanged_valid_mapStyle (env : AppEnv) (app : App) (ns : Style) (save : Bool)
    (h : env.validate ns = []) :
    (App.onStyleChanged env app ns save).1.state.mapStyle = ns := by
  simp [App.onStyleChanged, h, fetchSources_fst_mapStyle]

theorem onStyleChanged_valid_errors (env : AppEnv) (app : App) (ns : Style) (save : Bool)
    (h : env.validate ns = []) :
    (App.onStyleChanged env app ns save).1.state.errors = [] := by
  simp [App.onStyleChanged, h, fetchSources_fst_errors]

theorem onStyleChanged_valid_revisionStore (env : AppEnv) (app : App) (ns : Style) (save : Bool)
    (h : env.validate ns = []) :
    (App.onStyleChanged env app ns save).1.revisionStore
      = app.revisionStore.addRevision ns := by
  simp [App.onStyleChanged, h]

theorem onStyleChanged_valid_effects (env : AppEnv) (app : App) (ns : Style) (save : Bool)
    (h : env.validate ns = []) :
    (App.onStyleChanged env app ns save).2 =
      (if ns.glyphs ≠ app.state.mapStyle.glyphs then [Effect.fontUpdate ns.glyphs] else []) ++
      (if ns.sprite ≠ app.state.mapStyle.sprite then [Effect.iconUpdate ns.sprite] else []) ++
      (if save then [Effect.snapshotSave ns] else []) ++
      (fetchSources env { app.state with mapStyle := ns, errors := [] }).2 := by
  simp [App.onStyleChanged, h]

theorem onStyleChanged_invalid_mapStyle (env : AppEnv) (app : App) (ns : Style) (save : Bool)
    (h : env.validate ns ≠ []) :
    (App.onStyleChanged env app ns save).1.state.mapStyle = app.state.mapStyle := by
  simp [App.onStyleChanged, List.length_eq_zero, h, fetchSources_fst_mapStyle]

theorem onStyleChanged_invalid_errors (env : AppEnv) (app : App) (ns : Style) (save : Bool)
    (h : env.validate ns ≠ []) :
    (App.onStyleChanged env app ns save).1.state.errors
      = (env.validate ns).map (fun e => e.message) := by
  simp [App.onStyleChanged, List.length_eq_zero, h, fetchSources_fst_errors]

theorem onStyleChanged_invalid_revisionStore (env : AppEnv) (app : App) (ns : Style) (save : Bool)
    (h : env.validate ns ≠ []) :
    (App.onStyleChanged env app ns save).1.revisionStore = app.revisionStore := by
  simp [App.onStyleChanged, List.length_eq_zero, h]

theorem onStyleChanged_fst_selectedLayerIndex (env : AppEnv) (app : App) (ns : Style)
    (save : Bool) :
    (App.onStyleChanged env app ns save).1.state.selectedLayerIndex
      = app.state.selectedLayerIndex := by
  by_cases h : (env.validate ns).length = 0 <;>
    simp [App.onStyleChanged, h, fetchSources_fst_selectedLayerIndex]

theorem onStyleChanged_fst_spec (env : AppEnv) (app : App) (ns : Style) (save : Bool) :
    (App.onStyleChanged env app ns save).1.state.spec = app.state.spec := by
  by_cases h : (env.validate ns).length = 0 <;>
    simp [App.onStyleChanged, h, fetchSources_fst_spec]

/-! ### Lemmas about the `fetchSources` loop -/

theorem fetchSourcesLoop_preserves (env : AppEnv) (orig : List (String × SourceEntry))
    (l : List (String × SourceDef)) :
    ∀ acc k e, lookupKey k acc = some e →
      lookupKey k (fetchSourcesLoop env orig l acc).1 = some e := by
  induction l with
  | nil =>
    intro acc k e h
    simpa [fetchSourcesLoop] using h
  | cons p rest ih =>
    intro acc k e h
    obtain ⟨key, val⟩ := p
    rcases hsk : lookupKey key acc with _ | e2
    · simp only [fetchSourcesLoop, hsk]
      exact ih _ k e (lookupKey_append_of_some h)
    · simp only [fetchSourcesLoop, hsk]
      exact ih acc k e h

theorem fetchSourcesLoop_adds (env : AppEnv) (orig : List (String × SourceEntry))
    (l : List (String × SourceDef)) :
    ∀ acc k v, lookupKey k acc = none → lookupKey k l = some v →
      lookupKey k (fetchSourcesLoop env orig l acc).1
        = some { type := v.type, layers := [] } := by
  induction l with
  | nil =>
    intro acc k v _ hl
    simp [lookupKey] at hl
  | cons p rest ih =>
    intro acc k v hacc hl
    obtain ⟨key, val⟩ := p
    by_cases hkey : key = k
    · subst hkey
      simp [lookupKey] at hl
      subst hl
      simp only [fetchSourcesLoop, hacc]
      refine fetchSourcesLoop_preserves env orig rest _ key _ ?_
      rw [lookupKey_append_of_none hacc]
      exact lookupKey_singleton_self key _
    · have hl2 : lookupKey k rest = some v := by
        simpa [lookupKey, hkey] using hl
      rcases hsk : lookupKey key acc with _ | e2
      · simp only [fetchSourcesLoop, hsk]
        refine ih _ k v ?_ hl2
        rw [lookupKey_append_of_none hacc]
        exact lookupKey_singleton_ne _ hkey
      · simp only [fetchSourcesLoop, hsk]
        exact ih acc k v hacc hl2

theorem fetchSourcesLoop_fetch_mem (env : AppEnv) (orig : List (String × SourceEntry))
    (l : List (String × SourceDef)) :
    ∀ acc k u, Effect.fetchVector k u ∈ (fetchSourcesLoop env orig l acc).2 →
      lookupKey k acc = none ∧ lookupKey k orig = none ∧
      ∃ v, lookupKey k l = some v ∧ v.type = "vector" ∧
        ∃ u0, v.url = some u0 ∧ u = env.transformRequest u0 := by
  induction l with
  | nil =>
    intro acc k u h
    simp [fetchSourcesLoop] at h
  | cons p rest ih =>
    intro acc k u h
    obtain ⟨key, val⟩ := p
    rcases hsk : lookupKey key acc with _ | e2
    · simp only [fetchSourcesLoop, hsk, List.mem_append] at h
      rcases h with h | h
      · -- the effect was emitted for this very entry
        rcases horig : lookupKey key orig with _ | e3
        · rcases hurl : val.url with _ | u0
          · rw [horig, hurl] at h
            simp at h
          · rw [horig, hurl] at h
            by_cases htyp : val.type = "vector"
            · simp [htyp] at h
              obtain ⟨hk, hu⟩ := h
              subst hk
              refine ⟨hsk, horig, val, ?_, htyp, u0, hurl, hu⟩
              simp [lookupKey]
            · simp [htyp] at h
        · rw [horig] at h
          simp at h
      · obtain ⟨hacc2, horig2, v, hl, htyp, u0, hurl, hu⟩ := ih _ k u h
        obtain ⟨hacc, hone⟩ := lookupKey_append_none hacc2
        have hkey : key ≠ k := by
          intro hk
          subst hk
          rw [lookupKey_singleton_self key _] at hone
          exact absurd hone (by simp)
        refine ⟨hacc, horig2, v, ?_, htyp, u0, hurl, hu⟩
        simpa [lookupKey, hkey] using hl
    · simp only [fetchSourcesLoop, hsk] at h
      obtain ⟨hacc, horig2, v, hl, htyp, u0, hurl, hu⟩ := ih acc k u h
      have hkey : key ≠ k := by
        intro hk
        subst hk
        rw [hsk] at hacc
        exact absurd hacc (by simp)
      refine ⟨hacc, horig2, v, ?_, htyp, u0, hurl, hu⟩
      simpa [lookupKey, hkey] using hl

theorem fetchSourcesLoop_effects_fetch (env : AppEnv) (orig : List (String × SourceEntry))
    (l : List (String × SourceDef)) :
    ∀ acc e, e ∈ (fetchSourcesLoop env orig l acc).2 →
      ∃ k u, e = Effect.fetchVector k u := by
  induction l with
  | nil =>
    intro acc e h
    simp [fetchSourcesLoop] at h
  | cons p rest ih =>
    intro acc e h
    obtain ⟨key, val⟩ := p
    rcases hsk : lookupKey key acc with _ | e2
    · simp only [fetchSourcesLoop, hsk, List.mem_append] at h
      rcases h with h | h
      · rcases horig : lookupKey key orig with _ | e3 <;> rw [horig] at h
        · rcases hurl : val.url with _ | u0 <;> rw [hurl] at h
          · simp at h
          · by_cases htyp : val.type = "vector"
            · simp [htyp] at h
              exact ⟨key, env.transformRequest u0, h⟩
            · simp [htyp] at h
        · simp at h
      · exact ih _ e h
    · simp only [fetchSourcesLoop, hsk] at h
      exact ih acc e h

theorem fetchSources_effects_fetch (env : AppEnv) (st : AppState) (e : Effect)
    (h : e ∈ (fetchSources env st).2) : ∃ k u, e = Effect.fetchVector k u :=
  fetchSourcesLoop_effects_fetch env st.sources st.mapStyle.sources st.sources e
    (by simpa [fetchSources_snd] using h)

/-! ### The validation invariant (claim C1) -/

/-- Every style the component is holding — the current `mapStyle` and every
snapshot in the revision store — passed schema validation. -/
@[reducible] def ValidInv (env : AppEnv) (app : App) : Prop :=
  env.validate app.state.mapStyle = [] ∧
  (∀ s ∈ app.revisionStore.undoStack, env.validate s = []) ∧
  (∀ s ∈ app.revisionStore.redoStack, env.validate s = [])

theorem validInv_onStyleChanged (env : AppEnv) (app : App) (ns : Style) (save : Bool)
    (h : ValidInv env app) : ValidInv env (App.onStyleChanged env app ns save).1 := by
  by_cases hv : env.validate ns = []
  · refine ⟨?_, ?_, ?_⟩
    · rw [onStyleChanged_valid_mapStyle env app ns save hv]
      exact hv
    · rw [onStyleChanged_valid_revisionStore env app ns save hv]
      intro s hs
      rcases List.mem_cons.mp hs with hs | hs
      · subst hs; exact hv
      · exact h.2.1 s hs
    · rw [onStyleChanged_valid_revisionStore env app ns save hv]
      intro s hs
      simp [RevisionStore.addRevision] at hs
  · refine ⟨?_, ?_, ?_⟩
    · rw [onStyleChanged_invalid_mapStyle env app ns save hv]
      exact h.1
    · rw [onStyleChanged_invalid_revisionStore env app ns save hv]
      exact h.2.1
    · rw [onStyleChanged_invalid_revisionStore env app ns save hv]
      exact h.2.2

theorem validInv_onUndo (env : AppEnv) (app : App) (h : ValidInv env app) :
    ValidInv env (App.onUndo env app).1 := by
  obtain ⟨st, us, rs⟩ := app
  obtain ⟨h1, h2, h3⟩ := h
  rcases us with _ | ⟨c, _ | ⟨p, older⟩⟩
  · exact ⟨h1, h2, h3⟩
  · exact ⟨h2 c (by simp), h2, h3⟩
  · refine ⟨h2 p (by simp), ?_, ?_⟩
    · show ∀ s ∈ p :: older, env.validate s = []
      intro s hs
      exact h2 s (List.mem_cons_of_mem c hs)
    · show ∀ s ∈ c :: rs, env.validate s = []
      intro s hs
      rcases List.mem_cons.mp hs with h4 | h4
      · rw [h4]; exact h2 c (by simp)
      · exact h3 s h4

theorem validInv_onRedo (env : AppEnv) (app : App) (h : ValidInv env app) :
    ValidInv env (App.onRedo env app).1 := by
  obtain ⟨st, us, rs⟩ := app
  obtain ⟨h1, h2, h3⟩ := h
  rcases rs with _ | ⟨n, rest⟩
  · rcases us with _ | ⟨c, older⟩
    · exact ⟨h1, h2, h3⟩
    · exact ⟨h2 c (by simp), h2, h3⟩
  · refine ⟨h3 n (by simp), ?_, ?_⟩
    · show ∀ s ∈ n :: us, env.validate s = []
      intro s hs
      rcases List.mem_cons.mp hs with h4 | h4
      · rw [h4]; exact h3 n (by simp)
      · exact h2 s h4
    · show ∀ s ∈ rest, env.validate s = []
      intro s hs
      exact h3 s (List.mem_cons_of_mem n hs)

theorem validInv_runOp (env : AppEnv) (app : App) (op : EditorOp) (h : ValidInv env app) :
    ValidInv env (App.runOp env app op) := by
  cases op with
  | styleChanged s save => exact validInv_onStyleChanged env app s save h
  | undo => exact validInv_onUndo env app h
  | redo => exact validInv_onRedo env app h

theorem validInv_runOps (env : AppEnv) (app : App) (ops : List EditorOp)
    (h : ValidInv env app) : ValidInv env (App.runOps env app ops) := by
  induction ops generalizing app with
  | nil => exact h
  | cons op rest ih => exact ih (App.runOp env app op) (validInv_runOp env app op h)

/-! ### Reachability by accepted edits (claim C4) -/

/-- `EditReach env a app` holds when `app` arises from `a` by one or more
`onStyleChanged` calls whose style passed validation. -/
inductive EditReach (env : AppEnv) (a : App) : App → Prop
  | single (s : Style) (save : Bool) (hs : env.validate s = []) :
      EditReach env a (App.onStyleChanged env a s save).1
  | step {b : App} (s : Style) (save : Bool) (hb : EditReach env a b)
      (hs : env.validate s = []) :
      EditReach env a (App.onStyleChanged env b s save).1

/-- After at least one accepted edit, the current snapshot sits at the head
of the undo stack and the redo stack is empty. -/
theorem editReach_stack (env : AppEnv) (a app : App) (h : EditReach env a app) :
    (∃ rest, app.revisionStore.undoStack = app.state.mapStyle :: rest) ∧
    app.revisionStore.redoStack = [] := by
  induction h with
  | single s save hs =>
    rw [onStyleChanged_valid_revisionStore env a s save hs,
      onStyleChanged_valid_mapStyle env a s save hs]
    exact ⟨⟨a.revisionStore.undoStack, rfl⟩, rfl⟩
  | step s save hb hs ih =>
    rename_i b
    rw [onStyleChanged_valid_revisionStore env b s save hs,
      onStyleChanged_valid_mapStyle env b s save hs]
    exact ⟨⟨b.revisionStore.undoStack, rfl⟩, rfl⟩

/-! ### Bounds for `indexOfLayer` -/

theorem indexOfLayer_lt (layers : List Layer) (layerId : String) :
    ∀ i, indexOfLayer layers layerId = some i → i < layers.length := by
  induction layers with
  | nil =>
    intro i h
    simp [indexOfLayer] at h
  | cons l rest ih =>
    intro i h
    by_cases hl : l.id = layerId
    · simp [indexOfLayer, hl] at h
      simp only [List.length_cons]
      omega
    · simp [indexOfLayer, hl] at h
      obtain ⟨j, hj, hji⟩ := h
      have := ih j hj
      simp only [List.length_cons]
      omega

/-! ### Claim C2 -/

/-- C2: for every style on which the validator returns a non-empty error
list, `onStyleChanged` leaves the state's `mapStyle` unchanged and sets the
`errors` field to exactly the validators' error messages. -/
theorem c2_invalid_edit_rejected (env : AppEnv) (app : App) (ns : Style) (save : Bool)
    (h : env.validate ns ≠ []) :
    (App.onStyleChanged env app ns save).1.state.mapStyle = app.state.mapStyle ∧
    (App.onStyleChanged env app ns save).1.state.errors
      = (env.validate ns).map (fun e => e.message) :=
  ⟨onStyleChanged_invalid_mapStyle env app ns save h,
   onStyleChanged_invalid_errors env app ns save h⟩

/-- C2 witness: `validate0` rejects the three-layer style; the rejected edit
leaves the initial style in place and records the message list. -/
theorem c2_witness :
    (App.onStyleChanged env0 (App.init style0 spec0) badStyle true).1.state.mapStyle
        = (App.init style0 spec0).state.mapStyle ∧
    (App.onStyleChanged env0 (App.init style0 spec0) badStyle true).1.state.errors
        = (env0.validate badStyle).map (fun e => e.message) :=
  c2_invalid_edit_rejected env0 (App.init style0 spec0) badStyle true (by decide)

/-! ### Claim C5 -/

/-- C5: every style accepted by `onStyleChanged` is appended unmodified as
one new revision to the revision store (becoming the new head of the linear
snapshot stack), and no revision is added when validation fails. -/
theorem c5_linear_revision_stack (env : AppEnv) (app : App) (ns : Style) (save : Bool) :
    (env.validate ns = [] →
      (App.onStyleChanged env app ns save).1.revisionStore.undoStack
          = ns :: app.revisionStore.undoStack ∧
      (App.onStyleChanged env app ns save).1.revisionStore
          = app.revisionStore.addRevision ns) ∧
    (env.validate ns ≠ [] →
      (App.onStyleChanged env app ns save).1.revisionStore = app.revisionStore) := by
  constructor
  · intro h
    refine ⟨?_, onStyleChanged_valid_revisionStore env app ns save h⟩
    rw [onStyleChanged_valid_revisionStore env app ns save h]
    rfl
  · intro h
    exact onStyleChanged_invalid_revisionStore env app ns save h

/-- C5 witness: committing the one-layer style on the fresh component pushes
exactly that snapshot onto the (empty) stack. -/
theorem c5_witness :
    (App.onStyleChanged env0 (App.init style0 spec0) style1 true).1.revisionStore.undoStack
      = style1 :: (App.init style0 spec0).revisionStore.undoStack :=
  ((c5_linear_revision_stack env0 (App.init style0 spec0) style1 true).1 (by decide)).1

/-! ### Claim C7 -/

/-- C7 (code bug): the claim — and the spec — say a failed metadata fetch is
logged and otherwise ignored, the handler running without raising.  The
handler's log call references the identifier `url`, which is not bound in
any enclosing scope (the bindings in scope are `req` and `val`, whose `url`
properties were evidently intended), so evaluating it throws a
`ReferenceError` instead of logging.  The state is indeed untouched: the
handler contains no `setState`. -/
theorem c7_catch_handler_unresolved_reference :
    fetchSourcesCatchRaises = true ∧
    fetchSourcesCatchScope.contains "url" = false ∧
    fetchSourcesCatchScope.contains "req" = true ∧
    fetchSourcesCatchScope.contains "val" = true := by
  decide

/-! ### Claim C8 -/

/-- C8: `getDerivedStateFromProps` replaces the state's `mapStyle` with the
incoming prop — the definition consults no validator — and leaves every
other state field unchanged. -/
theorem c8_getDerivedStateFromProps_frame (ms : Style) (st : AppState) :
    (getDerivedStateFromProps ms st).mapStyle = ms ∧
    (getDerivedStateFromProps ms st).errors = st.errors ∧
    (getDerivedStateFromProps ms st).infos = st.infos ∧
    (getDerivedStateFromProps ms st).selectedLayerIndex = st.selectedLayerIndex ∧
    (getDerivedStateFromProps ms st).sources = st.sources ∧
    (getDerivedStateFromProps ms st).vectorLayers = st.vectorLayers ∧
    (getDerivedStateFromProps ms st).inspectModeEnabled = st.inspectModeEnabled ∧
    (getDerivedStateFromProps ms st).spec = st.spec :=
  ⟨rfl, rfl, rfl, rfl, rfl, rfl, rfl, rfl⟩

/-! ### Claim C10 -/

/-- C10: `changeInspectMode` flips the `inspectModeEnabled` flag, leaves
every other state field and the revision store unchanged, and two
consecutive calls restore the original component exactly. -/
theorem c10_changeInspectMode_involution (app : App) :
    App.changeInspectMode (App.changeInspectMode app) = app ∧
    (App.changeInspectMode app).state.inspectModeEnabled
        = !app.state.inspectModeEnabled ∧
    (App.changeInspectMode app).state.errors = app.state.errors ∧
    (App.changeInspectMode app).state.infos = app.state.infos ∧
    (App.changeInspectMode app).state.mapStyle = app.state.mapStyle ∧
    (App.changeInspectMode app).state.selectedLayerIndex
        = app.state.selectedLayerIndex ∧
    (App.changeInspectMode app).state.sources = app.state.sources ∧
    (App.changeInspectMode app).state.vectorLayers = app.state.vectorLayers ∧
    (App.changeInspectMode app).state.spec = app.state.spec ∧
    (App.changeInspectMode app).revisionStore = app.revisionStore := by
  obtain ⟨⟨e, i, m, sel, so, v, fl, sp⟩, rs⟩ := app
  simp [App.changeInspectMode]

/-! ### Claim C6 -/

/-- C6: `fetchSources` (i) never replaces or removes a cache entry for a
name already cached, (ii) adds, for every source name of the current style
not yet cached, an entry with that source's type and an empty layer list,
and (iii) starts a metadata fetch only for not-yet-cached sources of type
"vector" that have a `url` property. -/
theorem c6_fetchSources_cache (env : AppEnv) (st : AppState) :
    (∀ k e, lookupKey k st.sources = some e →
        lookupKey k (fetchSources env st).1.sources = some e)
  ∧ (∀ k v, lookupKey k st.sources = none →
        lookupKey k st.mapStyle.sources = some v →
        lookupKey k (fetchSources env st).1.sources
          = some { type := v.type, layers := [] })
  ∧ (∀ k u, Effect.fetchVector k u ∈ (fetchSources env st).2 →
        lookupKey k st.sources = none ∧
        ∃ v, lookupKey k st.mapStyle.sources = some v ∧ v.type = "vector" ∧
          ∃ u0, v.url = some u0 ∧ u = env.transformRequest u0) := by
  refine ⟨?_, ?_, ?_⟩
  · intro k e h
    rw [fetchSources_fst_sources]
    exact fetchSourcesLoop_preserves env st.sources st.mapStyle.sources st.sources k e h
  · intro k v hc hs
    rw [fetchSources_fst_sources]
    exact fetchSourcesLoop_adds env st.sources st.mapStyle.sources st.sources k v hc hs
  · intro k u h
    rw [fetchSources_snd] at h
    obtain ⟨hacc, _, hv⟩ :=
      fetchSourcesLoop_fetch_mem env st.sources st.mapStyle.sources st.sources k u h
    exact ⟨hacc, hv⟩

/-- C6 witness: on a state with an empty cache and one vector source under
the key "osm", `fetchSources` caches that source's type with an empty layer
list. -/
theorem c6_witness :
    lookupKey "osm" (fetchSources env0 stC6).1.sources
      = some { type := srcDefV.type, layers := [] } :=
  (c6_fetchSources_cache env0 stC6).2.1 "osm" srcDefV (by decide) (by decide)

/-! ### Claim C9 -/

/-- C9: for a style accepted by `onStyleChanged`, the font-metadata update
is triggered exactly when the new style's `glyphs` differs from the current
one, the sprite-metadata update exactly when `sprite` differs, and when both
are unchanged `onStyleChanged` itself leaves the state's `spec` field
unmodified. -/
theorem c9_font_icon_triggers (env : AppEnv) (app : App) (ns : Style) (save : Bool)
    (h : env.validate ns = []) :
    (Effect.fontUpdate ns.glyphs ∈ (App.onStyleChanged env app ns save).2 ↔
        ns.glyphs ≠ app.state.mapStyle.glyphs)
  ∧ (Effect.iconUpdate ns.sprite ∈ (App.onStyleChanged env app ns save).2 ↔
        ns.sprite ≠ app.state.mapStyle.sprite)
  ∧ (ns.glyphs = app.state.mapStyle.glyphs → ns.sprite = app.state.mapStyle.sprite →
        (App.onStyleChanged env app ns save).1.state.spec = app.state.spec) := by
  rw [onStyleChanged_valid_effects env app ns save h]
  have hfetchFont : ∀ g, Effect.fontUpdate g
      ∉ (fetchSources env { app.state with mapStyle := ns, errors := [] }).2 := by
    intro g hm
    obtain ⟨k2, u2, he⟩ := fetchSources_effects_fetch env _ _ hm
    exact Effect.noConfusion he
  have hfetchIcon : ∀ s2, Effect.iconUpdate s2
      ∉ (fetchSources env { app.state with mapStyle := ns, errors := [] }).2 := by
    intro s2 hm
    obtain ⟨k2, u2, he⟩ := fetchSources_effects_fetch env _ _ hm
    exact Effect.noConfusion he
  refine ⟨?_, ?_, fun _ _ => onStyleChanged_fst_spec env app ns save⟩
  · by_cases hg : ns.glyphs = app.state.mapStyle.glyphs <;>
      by_cases hs2 : ns.sprite = app.state.mapStyle.sprite <;>
      by_cases hsv : save <;>
      simp [hg, hs2, hsv, List.mem_append, hfetchFont _]
  · by_cases hg : ns.glyphs = app.state.mapStyle.glyphs <;>
      by_cases hs2 : ns.sprite = app.state.mapStyle.sprite <;>
      by_cases hsv : save <;>
      simp [hg, hs2, hsv, List.mem_append, hfetchIcon _]

/-- C9 witness: committing a style with fresh glyph and sprite URLs from the
fresh component does start the font-metadata update. -/
theorem c9_witness :
    Effect.fontUpdate styleFonts.glyphs
      ∈ (App.onStyleChanged env0 (App.init style0 spec0) styleFonts true).2 :=
  ((c9_font_icon_triggers env0 (App.init style0 spec0) styleFonts true (by decide)).1).mpr
    (by decide)

/-! ### Claim C3 -/

/-- Intermediate component for the C3 counterexample: select the layer with
id "b" (index 1) on the fresh two-layer component. -/
def appC3 : App := App.onLayerSelect (App.init style0 spec0) "b"

/-- Final component for the C3 counterexample: shrink the layer list to a
single layer through `onLayersChange` (a style `validate0` accepts). -/
def appC3b : App := (App.onLayersChange env0 appC3 [layerA]).1

/-- C3 counterexample: after constructor → `onLayerSelect "b"` →
`onLayersChange [layerA]`, the layer list is non-empty but the selection
index 1 is out of its bounds — the claimed invariant fails. -/
theorem c3_counterexample :
    appC3b.state.mapStyle.layers ≠ [] ∧
    appC3b.state.selectedLayerIndex = some 1 ∧
    ¬ 1 < appC3b.state.mapStyle.layers.length := by
  decide

/-- C3 (amended): `selectedLayerIndex` is changed only by the constructor
(which sets 0) and by `onLayerSelect`, which sets it to the position of the
given layer id — in bounds whenever the id is present; the layer-list
operations `onLayersChange`, `onLayerIdChange` and `onLayerChanged` leave
the selection untouched, so nothing restores the bound when the layer list
shrinks below it (see the counterexample). -/
theorem c3_selection_behaviour (env : AppEnv) (app : App) (pms : Style) (sp : SpecSchema) :
    (App.init pms sp).state.selectedLayerIndex = some 0
  ∧ (∀ layerId i, indexOfLayer app.state.mapStyle.layers layerId = some i →
      (App.onLayerSelect app layerId).state.selectedLayerIndex = some i ∧
      i < app.state.mapStyle.layers.length)
  ∧ (∀ cls, (App.onLayersChange env app cls).1.state.selectedLayerIndex
        = app.state.selectedLayerIndex)
  ∧ (∀ oldId newId, (App.onLayerIdChange env app oldId newId).1.state.selectedLayerIndex
        = app.state.selectedLayerIndex)
  ∧ (∀ layer, (App.onLayerChanged env app layer).1.state.selectedLayerIndex
        = app.state.selectedLayerIndex) := by
  refine ⟨rfl, ?_, ?_, ?_, ?_⟩
  · intro layerId i hidx
    refine ⟨?_, indexOfLayer_lt _ _ i hidx⟩
    simp [App.onLayerSelect, hidx]
  · intro cls
    simp [App.onLayersChange, onStyleChanged_fst_selectedLayerIndex]
  · intro oldId newId
    cases hidx : indexOfLayer app.state.mapStyle.layers oldId <;>
      simp [App.onLayerIdChange, hidx, App.onLayersChange,
        onStyleChanged_fst_selectedLayerIndex]
  · intro layer
    cases hidx : indexOfLayer app.state.mapStyle.layers layer.id <;>
      simp [App.onLayerChanged, hidx, App.onLayersChange,
        onStyleChanged_fst_selectedLayerIndex]

/-- C3 witness: selecting the present id "b" on the fresh two-layer
component puts the selection at index 1, within bounds. -/
theorem c3_witness :
    (App.onLayerSelect (App.init style0 spec0) "b").state.selectedLayerIndex = some 1 ∧
    1 < (App.init style0 spec0).state.mapStyle.layers.length :=
  (c3_selection_behaviour env0 (App.init style0 spec0) style0 spec0).2.1 "b" 1 (by decide)

/-! ### Claim C1 -/

/-- C1 counterexample: the claim counts prop reception via
`getDerivedStateFromProps` among the operations, but that path installs
`props.mapStyle` without validation: starting from the valid two-layer
style, receiving the three-layer style (which `validate0` rejects) leaves a
`mapStyle` that never passed validation and differs from the previous valid
value. -/
theorem c1_counterexample :
    env0.validate (App.init style0 spec0).state.mapStyle = [] ∧
    (getDerivedStateFromProps badStyle (App.init style0 spec0).state).mapStyle = badStyle ∧
    env0.validate badStyle ≠ [] ∧
    badStyle ≠ (App.init style0 spec0).state.mapStyle := by
  decide

/-- C1 (amended): restricted to `onStyleChanged` / `onUndo` / `onRedo`, the
invariant holds: starting from a component whose `mapStyle` and stored
snapshots all passed schema validation, the `mapStyle` held in state always
passed schema validation — the newly accepted value after a successful
edit, the previous valid value after a failed one, a stored snapshot after
undo or redo.  Receiving a new `mapStyle` prop through
`getDerivedStateFromProps` is excluded: it bypasses validation (see the
counterexample). -/
theorem c1_mapStyle_always_validated (env : AppEnv) (app : App) (ops : List EditorOp)
    (h : ValidInv env app) :
    env.validate (App.runOps env app ops).state.mapStyle = [] :=
  (validInv_runOps env app ops h).1

/-- C1 witness: the fresh component holding the valid two-layer style
satisfies the invariant, and after committing the one-layer style and
undoing, the held `mapStyle` still passes validation. -/
theorem c1_witness :
    env0.validate (App.runOps env0 (App.init style0 spec0)
      [EditorOp.styleChanged style1 true, EditorOp.undo]).state.mapStyle = [] :=
  c1_mapStyle_always_validated env0 (App.init style0 spec0)
    [EditorOp.styleChanged style1 true, EditorOp.undo] (by decide)

/-! ### Claim C4 -/

/-- C4: from any component reached by a sequence of successful
`onStyleChanged` calls, `onUndo` commits exactly the snapshot the revision
store returns as the previous revision and passes it to the
`onSnapshotSave` callback; a subsequent `onRedo` commits the snapshot that
was undone — the `mapStyle` held before the undo — and passes it to
`onSnapshotSave` as well. -/
theorem c4_undo_redo_restores (env : AppEnv) (a app : App) (h : EditReach env a app) :
    ∃ prev rs, app.revisionStore.undo = (rs, some prev) ∧
      (App.onUndo env app).1.state.mapStyle = prev ∧
      Effect.snapshotSave prev ∈ (App.onUndo env app).2 ∧
      (App.onRedo env (App.onUndo env app).1).1.state.mapStyle = app.state.mapStyle ∧
      Effect.snapshotSave app.state.mapStyle
        ∈ (App.onRedo env (App.onUndo env app).1).2 := by
  obtain ⟨⟨rest, hstack⟩, hredo⟩ := editReach_stack env a app h
  obtain ⟨st, us, rs⟩ := app
  change us = st.mapStyle :: rest at hstack
  change rs = [] at hredo
  subst hstack
  subst hredo
  cases rest with
  | nil =>
    exact ⟨st.mapStyle, ⟨[st.mapStyle], []⟩, rfl, rfl, List.mem_cons_self _ _, rfl,
      List.mem_cons_self _ _⟩
  | cons p older =>
    exact ⟨p, ⟨p :: older, [st.mapStyle]⟩, rfl, rfl, List.mem_cons_self _ _, rfl,
      List.mem_cons_self _ _⟩

/-- C4 witness: after one accepted edit from the fresh component, undo
returns the previous snapshot and redo returns to the committed one. -/
theorem c4_witness :
    ∃ prev rs,
      (App.onStyleChanged env0 (App.init style0 spec0) style1 true).1.revisionStore.undo
          = (rs, some prev) ∧
      (App.onUndo env0
          (App.onStyleChanged env0 (App.init style0 spec0) style1 true).1).1.state.mapStyle
          = prev ∧
      Effect.snapshotSave prev
          ∈ (App.onUndo env0
              (App.onStyleChanged env0 (App.init style0 spec0) style1 true).1).2 ∧
      (App.onRedo env0 (App.onUndo env0
          (App.onStyleChanged env0 (App.init style0 spec0) style1 true).1).1).1.state.mapStyle
          = (App.onStyleChanged env0 (App.init style0 spec0) style1 true).1.state.mapStyle ∧
      Effect.snapshotSave
          (App.onStyleChanged env0 (App.init style0 spec0) style1 true).1.state.mapStyle
          ∈ (App.onRedo env0 (App.onUndo env0
              (App.onStyleChanged env0 (App.init style0 spec0) style1 true).1).1).2 :=
  c4_undo_redo_restores env0 (App.init style0 spec0)
    (App.onStyleChanged env0 (App.init style0 spec0) style1 true).1
    (EditReach.single style1 true (by decide))

end Editor
